import Mathlib

/-!
Shallow embedding of `neural_machine_translation/onmt/Models.py`: the
attention-based recurrent decoder with fertility-bounded attention
(`Decoder.forward`), the encoder entry checks (`Encoder.forward`), the
model orchestration (`NMTModel`), and the beam-search decoder-state
family (`DecoderState` / `RNNDecoderState`).

Tensors are modelled over `ℚ` (the claims under study are about
bookkeeping and shape structure, not floating-point rounding):
a 2-D tensor is a list of rows (`Mat`), a 3-D tensor a list of `Mat`
slices along dimension 0 (`T3`).  Integer token tensors are lists over
`Nat`.  External collaborators that live outside this file's source
(`onmt.modules.GlobalAttention`, `StackedLSTM`/`StackedGRU`, the
embedding lookup, dropout, the context gate) are opaque function
parameters gathered in oracle structures; the claims proved below do
not depend on their internals beyond explicitly stated shape
hypotheses.  Fallible Python behaviour (assertions, index errors,
tensor-truthiness errors, `torch.stack` on an empty list) is modelled
with `Except String`.
-/

/-- A 2-D tensor: a list of rows. -/
abbrev Mat : Type := List (List ℚ)

/-- A 3-D tensor: a list of 2-D slices along dimension 0. -/
abbrev T3 : Type := List Mat

/-- Size of dimension 1 of a 2-D tensor (number of columns, read off the
first row, as `t.size(1)` would report for a rectangular tensor). -/
def numCols (m : Mat) : Nat := (m.headD []).length

/-- Size of dimension 1 of a 3-D tensor. -/
def dim1 (t : List (List α)) : Nat := (t.headD []).length

/-- Entry `m[b][j]` of a 2-D tensor, with default `0` out of range. -/
def entry (m : Mat) (b j : Nat) : ℚ := (m.getD b []).getD j 0

/-- `m` is a rectangular `r × c` tensor. -/
def isRect (m : Mat) (r c : Nat) : Prop := m.length = r ∧ ∀ row ∈ m, row.length = c

instance (m : Mat) (r c : Nat) : Decidable (isRect m r c) := by
  unfold isRect; infer_instance

/-- Entrywise addition of 2-D tensors (`a + b`). -/
def matAdd (a b : Mat) : Mat := List.zipWith (fun r1 r2 => List.zipWith (· + ·) r1 r2) a b

/-- Entrywise subtraction of 2-D tensors (`a -= b` produces this value). -/
def matSub (a b : Mat) : Mat := List.zipWith (fun r1 r2 => List.zipWith (· - ·) r1 r2) a b

/-- `torch.cat([a, b], 1)`: concatenate along dimension 1 (rows side by side). -/
def matCat (a b : Mat) : Mat := List.zipWith (fun r1 r2 => r1 ++ r2) a b

/-- `t[:, -1] = v`: overwrite the last column of every row.  Indexing
column `-1` of a tensor whose rows are empty is an index error. -/
def setLastCol (m : Mat) (v : ℚ) : Except String Mat :=
  if m.any (fun r => r.isEmpty) then .error "index -1 is out of range"
  else .ok (m.map (fun r => r.dropLast ++ [v]))

/-- `x.squeeze(0)` on a `1 × b × d` tensor: its single 2-D slice. -/
def squeeze0 (t : T3) : Mat := t.headD []

/-- `context.transpose(0, 1)`: swap dimensions 0 and 1 of a 3-D tensor. -/
def transpose01 (t : T3) : T3 :=
  (List.range (dim1 t)).map (fun j => t.map (fun m => m.getD j []))

/-- `torch.stack(xs)` on a list of equal-shape 2-D tensors: the 3-D
tensor whose dimension-0 slices are the list's elements; raises on an
empty list. -/
def stackE (xs : List Mat) : Except String T3 :=
  if xs.isEmpty then .error "stack expects a non-empty list of Tensors" else .ok xs

/-- Python truthiness of a tensor (`if coverage:` on a tensor value):
a one-element tensor is truthy iff its element is nonzero; any other
element count raises the ambiguity error. -/
def tensorTruthy (m : Mat) : Except String Bool :=
  match m.flatten with
  | [v] => .ok (decide (v ≠ 0))
  | _ => .error "bool value of a Tensor with more than one element is ambiguous"

/-- Python truthiness of an optional tensor: `None` is falsy, a tensor
is judged by `tensorTruthy`. -/
def pyTruthyOpt : Option Mat → Except String Bool
  | none => .ok false
  | some m => tensorTruthy m

/-- Modelled from the spec: `aeq` (imported from `onmt.modules`, whose
source is not part of this file's repository snapshot) is the explicit
equality assertion used for the shape/consistency checks; it fails
fatally (an `AssertionError`) unless all of its arguments are equal. -/
def aeqE (xs : List Nat) : Except String Unit :=
  if xs.all (fun x => x = xs.headD 0) then .ok () else .error "AssertionError: aeq"

/- ### Generic `Except` and list computation lemmas -/

@[simp] theorem exc_bind_ok {α β : Type} (a : α) (f : α → Except String β) :
    (Except.ok a >>= f) = f a := rfl

@[simp] theorem exc_bind_error {α β : Type} (e : String) (f : α → Except String β) :
    ((Except.error e : Except String α) >>= f) = Except.error e := rfl

@[simp] theorem exc_pure {α : Type} (a : α) : (pure a : Except String α) = Except.ok a := rfl

theorem getD_zipWith {α β γ : Type} (f : α → β → γ) (d1 : α) (d2 : β) (d3 : γ) :
    ∀ (xs : List α) (ys : List β) (i : Nat), i < xs.length → i < ys.length →
      (List.zipWith f xs ys).getD i d3 = f (xs.getD i d1) (ys.getD i d2) := by
  intro xs
  induction xs with
  | nil => intro ys i h _; exact absurd h (by simp)
  | cons x xs ih =>
    intro ys i h1 h2
    cases ys with
    | nil => exact absurd h2 (by simp)
    | cons y ys =>
      cases i with
      | zero => rfl
      | succ n =>
        simp only [List.zipWith, List.getD_cons_succ]
        exact ih ys n (by simpa using h1) (by simpa using h2)

theorem getD_map {α β : Type} (f : α → β) (d1 : α) (d2 : β) :
    ∀ (xs : List α) (i : Nat), i < xs.length → (xs.map f).getD i d2 = f (xs.getD i d1) := by
  intro xs
  induction xs with
  | nil => intro i h; exact absurd h (by simp)
  | cons x xs ih =>
    intro i h
    cases i with
    | zero => rfl
    | succ n => simpa using ih n (by simpa using h)

theorem getD_replicate {α : Type} (a d : α) :
    ∀ (n i : Nat), i < n → (List.replicate n a).getD i d = a := by
  intro n
  induction n with
  | zero => intro i h; exact absurd h (by simp)
  | succ m ih =>
    intro i h
    cases i with
    | zero => rfl
    | succ k =>
      rw [List.replicate_succ, List.getD_cons_succ]
      exact ih k (by omega)

theorem getD_append_left {α : Type} (d : α) :
    ∀ (xs ys : List α) (i : Nat), i < xs.length → (xs ++ ys).getD i d = xs.getD i d := by
  intro xs
  induction xs with
  | nil => intro ys i h; exact absurd h (by simp)
  | cons x xs ih =>
    intro ys i h
    cases i with
    | zero => rfl
    | succ n => simpa using ih ys n (by simpa using h)

theorem getD_dropLast {α : Type} (d : α) :
    ∀ (xs : List α) (i : Nat), i + 1 < xs.length → xs.dropLast.getD i d = xs.getD i d := by
  intro xs
  induction xs with
  | nil => intro i h; exact absurd h (by simp)
  | cons x xs ih =>
    intro i h
    cases xs with
    | nil => simp at h
    | cons y ys =>
      cases i with
      | zero => rfl
      | succ n =>
        simp only [List.dropLast_cons₂, List.getD_cons_succ]
        exact ih n (by simpa using h)

theorem getD_sinkRow {α : Type} (d : α) (v : α) (xs : List α) (i : Nat)
    (h : i + 1 < xs.length) : (xs.dropLast ++ [v]).getD i d = xs.getD i d := by
  have h1 : i < xs.dropLast.length := by
    simp only [List.length_dropLast]; omega
  rw [getD_append_left d xs.dropLast [v] i h1, getD_dropLast d xs i h]

/- ### Decoder state family (`DecoderState` / `RNNDecoderState` /
`TransformerDecoderState`, Models.py lines 311-380) -/

/-- `RNNDecoderState.__init__`: hidden-state tuple (a single tensor is
wrapped into a one-element tuple by the constructor), input feed,
optional coverage accumulator, optional fertility budget.  The derived
Python attribute `self.all = self.hidden + (self.input_feed,)` is the
function `RNNDecoderState.allList` below; every constructor and mutator
of the class re-establishes that equation. -/
structure RNNDecoderState where
  hidden : List T3
  input_feed : Option T3 := none
  coverage : Option T3 := none
  attn_upper_bounds : Option Mat := none

/-- `TransformerDecoderState`: carries only the previously generated
input (its `all` tuple is `(previous_input,)`). -/
structure TransformerDecoderState where
  previous_input : Option T3 := none

/-- The two mutually exclusive decoder-state variants, as a sum: the
`isinstance(state, RNNDecoderState)` assertion in `Decoder.forward` is a
match on this tag. -/
inductive DecoderStateV where
  | rnn (s : RNNDecoderState)
  | transformer (s : TransformerDecoderState)

/-- `self.all = self.hidden + (self.input_feed,)` of `RNNDecoderState`
(hidden entries are never `None`; the input feed may be). -/
def RNNDecoderState.allList (s : RNNDecoderState) : List (Option T3) :=
  s.hidden.map some ++ [s.input_feed]

/-- `RNNDecoderState._resetAll`: re-wrap the given tensors and split
them back into `hidden = vars[:-1]` and `input_feed = vars[-1]`; the
coverage and fertility-budget fields are not mentioned. -/
def RNNDecoderState.resetAll (s : RNNDecoderState) (vars : List T3) : RNNDecoderState :=
  { s with hidden := vars.dropLast, input_feed := vars.getLast? }

/-- `DecoderState.detach` as it acts on an `RNNDecoderState`:
`for h in self.all: if h is not None: h.detach_()`.  The in-place
`detach_` is modelled as an arbitrary tensor transformation `f`
(severing autograd history preserves no structure this embedding
tracks, so the frame property is proved for every `f`). -/
def detachWith (f : T3 → T3) (s : RNNDecoderState) : RNNDecoderState :=
  { s with hidden := s.hidden.map f, input_feed := s.input_feed.map f }

/-- `e.data.repeat(1, beamSize, 1)`: tile dimension 1 (the batch
dimension) `beamSize` times. -/
def repeatDim1 (beamSize : Nat) (t : T3) : T3 :=
  t.map (fun m => (List.replicate beamSize m).flatten)

/-- `DecoderState.repeatBeam_` as it acts on an `RNNDecoderState`:
`self._resetAll([Variable(e.data.repeat(1, beamSize, 1)) for e in self.all])`.
Unlike `detach`, the list comprehension has no `None` guard: a state
whose input feed is `None` raises (`None` has no attribute `data`),
modelled as `none`. -/
def repeatBeam (beamSize : Nat) (s : RNNDecoderState) : Option RNNDecoderState :=
  (s.allList.mapM id).map (fun es => s.resetAll (es.map (repeatDim1 beamSize)))

/-- The row-level effect of `DecoderState.beamUpdate_` on one 2-D slice
`m` of a state tensor (and of the `RNNDecoderState` override on the 2-D
fertility budget): viewing the batch dimension as
`beamSize × (batch // beamSize)`, row `b * sentPerBeam + idx` is
overwritten with row `positions[b] * sentPerBeam + idx`. -/
def beamUpdateMat (beamSize idx : Nat) (positions : List Nat) (m : Mat) : Mat :=
  (List.range m.length).map (fun r =>
    if r % (m.length / beamSize) = idx then
      m.getD ((positions.getD (r / (m.length / beamSize)) (r / (m.length / beamSize)))
        * (m.length / beamSize) + idx) []
    else m.getD r [])

/-- `DecoderState.beamUpdate_` (the base-class body) as it acts on an
`RNNDecoderState`: reorder the selected beam slice of every tensor in
`self.all`, i.e. of the hidden tuple and the input feed. -/
def DecoderState.beamUpdate (beamSize idx : Nat) (positions : List Nat)
    (s : RNNDecoderState) : RNNDecoderState :=
  { s with hidden := s.hidden.map (fun e => e.map (beamUpdateMat beamSize idx positions)),
           input_feed := s.input_feed.map (fun e => e.map (beamUpdateMat beamSize idx positions)) }

/-- `RNNDecoderState.beamUpdate_` (the override): the base-class update
followed by the same reordering of the 2-D fertility-budget tensor when
it is present. -/
def RNNDecoderState.beamUpdate (beamSize idx : Nat) (positions : List Nat)
    (s : RNNDecoderState) : RNNDecoderState :=
  let s1 := DecoderState.beamUpdate beamSize idx positions s
  { s1 with attn_upper_bounds := s1.attn_upper_bounds.map (beamUpdateMat beamSize idx positions) }

/- ### Decoder (`Decoder.forward`, Models.py lines 167-257) -/

/-- The construction-time switches of `Decoder.__init__` that
`Decoder.forward` reads: `self._coverage = opt.coverage_attn`,
`self.exhaustion_loss`, `self._copy = opt.copy_attn`,
`self.input_feed`, whether `self.context_gate is not None`, and
`self.fertility = opt.fertility`. -/
structure DecoderCfg where
  coverage_flag : Bool
  exhaustion_loss : Bool
  copy_flag : Bool
  input_feed : Bool
  context_gate : Bool
  fertility : ℚ

/-- The decoder's external collaborators (modules constructed in
`Decoder.__init__` whose own code lives outside `Models.py`):
`self.embeddings` (already split per target step and squeezed, as the
loop does with `emb.split(1)` / `squeeze(0)`), the stacked recurrent
cell `self.rnn`, the fertility-bounded attention `self.attn` (returning
`(attn_output, attn)`), the copy attention `self.copy_attn`,
`self.dropout`, and `self.context_gate`. -/
structure DecOracle where
  embeddings : List (List Nat) → List Mat
  rnn : Mat → List T3 → Mat × List T3
  attn : Mat → T3 → Mat → Mat × Mat
  copy_attn : Mat → T3 → Mat × Mat
  dropout : Mat → Mat
  context_gate : Mat → Mat → Mat → Mat

/-- The CHECKS block of `Decoder.forward` (lines 183-210), in program
order: `aeq(n_batch, n_batch_, n_batch__)` over the target input, the
source and the memory bank; `assert isinstance(state, RNNDecoderState)`;
`output = state.input_feed.squeeze(0)` (an `AttributeError` when the
input feed is `None`); `aeq(n_batch, n_batch_)` against the input
feed's batch dimension.  Returns the state and the squeezed feed. -/
def decoderChecks (input : List (List Nat)) (src : List (List (List Nat)))
    (context : T3) (state : DecoderStateV) : Except String (RNNDecoderState × Mat) := do
  let n_batch := dim1 input
  let _ ← aeqE [n_batch, dim1 src, dim1 context]
  match state with
  | .transformer _ => .error "AssertionError: isinstance(state, RNNDecoderState)"
  | .rnn st =>
    match st.input_feed with
    | none => .error "AttributeError: NoneType object has no attribute squeeze"
    | some f =>
      let output := squeeze0 f
      let _ ← aeqE [n_batch, output.length]
      .ok (st, output)

/-- Lines 216-220 of the per-step loop: if no fertility budget exists
yet, create one with every entry equal to the configured fertility
value, of shape `n_batch_ × s_len_`; then overwrite the sink (last)
source position's entry with the constant `100` for every batch
element.  The result is the budget handed to the attention call. -/
def preAttnUB (fertility : ℚ) (nb sl : Nat) (ubo : Option Mat) : Except String Mat :=
  setLastCol (ubo.getD (List.replicate nb (List.replicate sl fertility))) 100

/-- The running values threaded through the per-step loop of
`Decoder.forward`: the previous step's output, the recurrent hidden
state, the coverage accumulator, the fertility budget, and the lists
built up for `outputs` and the `attns` dictionary entries. -/
structure LoopState where
  output : Mat
  hidden : List T3
  coverage : Option Mat := none
  upper_bounds : Option Mat := none
  outputs : List Mat := []
  attns_std : List Mat := []
  attns_coverage : List Mat := []
  attns_copy : List Mat := []
  attns_upper_bounds : List Mat := []

/-- The loop state at loop entry (lines 205-212): `output` is the
squeezed input feed, `hidden = state.hidden`, `coverage` the squeezed
state coverage, `upper_bounds` the caller-supplied budget. -/
def mkInitLoop (output : Mat) (hidden : List T3) (coverage : Option Mat)
    (ub : Option Mat) : LoopState :=
  { output := output, hidden := hidden, coverage := coverage, upper_bounds := ub }

/-- Line 223-224: under input feeding, concatenate the embedded step
with the previous output along dimension 1. -/
def stepEmb (cfg : DecoderCfg) (ls : LoopState) (e : Mat) : Mat :=
  if cfg.input_feed then matCat e ls.output else e

/-- Lines 230-234: route through the context gate when configured,
otherwise take the attention output; dropout in both cases. -/
def stepOut (cfg : DecoderCfg) (o : DecOracle) (e1 rnn_output attn_output : Mat) : Mat :=
  if cfg.context_gate then o.dropout (o.context_gate e1 rnn_output attn_output)
  else o.dropout attn_output

/-- Lines 238-241: the COVERAGE block.  When coverage tracking is on,
`coverage = (coverage + attn) if coverage else attn` — note the Python
truthiness test on a tensor — and the new value is recorded.  Returns
the new coverage field and the optional recorded entry. -/
def stepCoverage (cfg : DecoderCfg) (c : Option Mat) (attn : Mat) :
    Except String (Option Mat × Option Mat) :=
  if cfg.coverage_flag then
    match pyTruthyOpt c with
    | .error s => .error s
    | .ok b =>
      let cnew := match c, b with
        | some cv, true => matAdd cv attn
        | _, _ => attn
      .ok (some cnew, some cnew)
  else .ok (c, none)

/-- Lines 244-246: the COPY block — a second attention over the memory
bank queried with the (post-gate, post-dropout) step output. -/
def stepCopy (cfg : DecoderCfg) (o : DecOracle) (context : T3) (out1 : Mat) : Option Mat :=
  if cfg.copy_flag then some ((o.copy_attn out1 (transpose01 context)).2) else none

/-- Line 226: `rnn_output, hidden = self.rnn(emb_t, hidden)` — the raw
recurrent output. -/
def stepRnnOut (o : DecOracle) (cfg : DecoderCfg) (ls : LoopState) (e : Mat) : Mat :=
  (o.rnn (stepEmb cfg ls e) ls.hidden).1

/-- Line 226: the new hidden state. -/
def stepHidden (o : DecOracle) (cfg : DecoderCfg) (ls : LoopState) (e : Mat) : List T3 :=
  (o.rnn (stepEmb cfg ls e) ls.hidden).2

/-- Line 227: `attn_output, attn = self.attn(rnn_output,
context.transpose(0, 1), upper_bounds=upper_bounds)` — the attention
call, with the sink-reset budget `u1` as its upper bound. -/
def stepAttn (cfg : DecoderCfg) (o : DecOracle) (context : T3) (ls : LoopState)
    (e : Mat) (u1 : Mat) : Mat × Mat :=
  o.attn (stepRnnOut o cfg ls e) (transpose01 context) u1

/-- Lines 230-234: the (post-gate, post-dropout) step output. -/
def stepOutput (cfg : DecoderCfg) (o : DecOracle) (context : T3) (ls : LoopState)
    (e : Mat) (u1 : Mat) : Mat :=
  stepOut cfg o (stepEmb cfg ls e) (stepRnnOut o cfg ls e) (stepAttn cfg o context ls e u1).1

/-- The loop state after one iteration of lines 214-248, given the
sink-reset budget `u1` and the coverage result `cov`: the budget
decremented by the realized attention weights (line 229), the per-step
lists extended with this step's records. -/
def stepRecord (cfg : DecoderCfg) (o : DecOracle) (context : T3) (ls : LoopState)
    (e : Mat) (u1 : Mat) (cov : Option Mat × Option Mat) : LoopState :=
  { output := stepOutput cfg o context ls e u1
    hidden := stepHidden o cfg ls e
    coverage := cov.1
    upper_bounds := some (matSub u1 (stepAttn cfg o context ls e u1).2)
    outputs := ls.outputs ++ [stepOutput cfg o context ls e u1]
    attns_std := ls.attns_std ++ [(stepAttn cfg o context ls e u1).2]
    attns_coverage := ls.attns_coverage ++ cov.2.toList
    attns_copy := ls.attns_copy ++ (stepCopy cfg o context (stepOutput cfg o context ls e u1)).toList
    attns_upper_bounds := ls.attns_upper_bounds ++
      (if cfg.exhaustion_loss then [matSub u1 (stepAttn cfg o context ls e u1).2] else []) }

/-- One iteration of the `for i, emb_t in enumerate(emb.split(1))` loop
(lines 214-248): compute the sink-reset budget, run the cell and the
attention, decrement the budget, update coverage, and extend the
per-step records.  In the real code `upper_bounds -= attn` mutates the
budget tensor in place, so the references appended to
`attns["upper_bounds"]` all alias one tensor; no theorem below reads
the recorded per-step budget values, only the budget itself. -/
def decStep (cfg : DecoderCfg) (o : DecOracle) (context : T3) (nb sl : Nat)
    (ls : LoopState) (e : Mat) : Except String LoopState := do
  let u1 ← preAttnUB cfg.fertility nb sl ls.upper_bounds
  let cov ← stepCoverage cfg ls.coverage (stepAttn cfg o context ls e u1).2
  .ok (stepRecord cfg o context ls e u1 cov)

/-- The decode loop, recording the state after every step. -/
def decTrace (cfg : DecoderCfg) (o : DecOracle) (context : T3) (nb sl : Nat) :
    LoopState → List Mat → Except String (List LoopState)
  | _, [] => .ok []
  | ls, e :: es => do
    let ls1 ← decStep cfg o context nb sl ls e
    let rest ← decTrace cfg o context nb sl ls1 es
    .ok (ls1 :: rest)

/-- Line 250-253: the decoder state returned at the end of the loop —
the final hidden tuple, the last output unsqueezed as the new input
feed, the coverage accumulator unsqueezed (or `None`), and the final
fertility budget. -/
def mkFinalState (fin : LoopState) : RNNDecoderState :=
  { hidden := fin.hidden
    input_feed := some [fin.output]
    coverage := fin.coverage.map (fun c => [c])
    attn_upper_bounds := fin.upper_bounds }

/-- The stacking of one conditionally-present dictionary entry: the key
exists iff its flag is set, and its per-step list is stacked when it
exists. -/
def condStack (flag : Bool) (xs : List Mat) (key : String) :
    Except String (List (String × T3)) :=
  if flag then (stackE xs).map (fun c => [(key, c)]) else .ok []

/-- Lines 255-256: `for k in attns: attns[k] = torch.stack(attns[k])`.
The dictionary keys, in insertion order (lines 196-202): `"std"`
always, `"copy"` iff copy attention is configured, `"coverage"` iff
coverage is configured, `"upper_bounds"` iff exhaustion loss is
configured. -/
def attnsFinal (cfg : DecoderCfg) (fin : LoopState) : Except String (List (String × T3)) := do
  let std ← stackE fin.attns_std
  let cp ← condStack cfg.copy_flag fin.attns_copy "copy"
  let cov ← condStack cfg.coverage_flag fin.attns_coverage "coverage"
  let ub ← condStack cfg.exhaustion_loss fin.attns_upper_bounds "upper_bounds"
  .ok ([("std", std)] ++ cp ++ cov ++ ub)

/-- `Decoder.forward` (lines 167-257).  The `fertility_vals` parameter
is accepted and never read, as in the source (`fert_dict`,
`fert_sents` and `test` are likewise never read and are omitted).
Returns `(outputs, state, attns, upper_bounds)`. -/
def Decoder.forward (cfg : DecoderCfg) (o : DecOracle) (input : List (List Nat))
    (src : List (List (List Nat))) (context : T3) (state : DecoderStateV)
    (fertility_vals : Option T3) (upper_bounds : Option Mat) :
    Except String (T3 × RNNDecoderState × List (String × T3) × Option Mat) := do
  let p ← decoderChecks input src context state
  let emb := o.embeddings input
  let coverage := p.1.coverage.map squeeze0
  let init := mkInitLoop p.2 p.1.hidden coverage upper_bounds
  let sts ← decTrace cfg o context p.2.length context.length init emb
  let fin := sts.getLastD init
  let outs ← stackE fin.outputs
  let attns ← attnsFinal cfg fin
  .ok (outs, mkFinalState fin, attns, fin.upper_bounds)

/- ### Encoder (`Encoder.forward`, Models.py lines 87-119) -/

/-- The encoder's final hidden state: a single tensor or an LSTM-style
tuple (`init_decoder_state` branches on `isinstance(enc_hidden, tuple)`). -/
inductive EncHidden where
  | single (t : T3)
  | tup (ts : List T3)

/-- The encoder's external collaborators: the embedding lookup and the
(possibly packed) recurrent network; packing with the flattened lengths
list and unpacking are absorbed into the `rnn` function, which receives
the flattened lengths exactly as `pack` would. -/
structure EncOracle where
  embeddings : List (List (List Nat)) → T3
  rnn : T3 → Option (List ℚ) → T3 × EncHidden

/-- The CHECKS block of `Encoder.forward` (lines 99-104): when a
lengths tensor is supplied, `_, n_batch_ = lengths.size()` reads its
dimension-1 size (the lengths tensor is handled in its `1 × batch`
layout) and `aeq(n_batch, n_batch_)` asserts it equals the input's
batch dimension; no check happens when `lengths` is `None`. -/
def encoderChecks (input : List (List (List Nat))) (lengths : Option Mat) :
    Except String Unit :=
  let n_batch := dim1 input
  match lengths with
  | none => .ok ()
  | some l => aeqE [n_batch, numCols l]

/-- `lengths.data.view(-1).tolist()`: flatten the lengths tensor. -/
def matFlatten (m : Mat) : List ℚ := m.flatten

/-- `Encoder.forward` (lines 87-119): entry checks, embedding, the
recurrent run (packed when lengths are given), and the constant
`fertility_vals = None` third result. -/
def Encoder.forward (o : EncOracle) (input : List (List (List Nat)))
    (lengths : Option Mat) : Except String (EncHidden × T3 × Option T3) := do
  let _ ← encoderChecks input lengths
  let emb := o.embeddings input
  let r := o.rnn emb (lengths.map matFlatten)
  .ok (r.2, r.1, none)

/- ### NMTModel (Models.py lines 260-309) -/

/-- `h[0:h.size(0):2]`: every other dimension-0 slice starting at 0. -/
def sliceStep2 : List α → List α
  | [] => []
  | [a] => [a]
  | a :: _ :: rest => a :: sliceStep2 rest

/-- `NMTModel._fix_enc_hidden` (lines 267-274): when the encoder is
bidirectional (`num_directions == 2`), concatenate the even-indexed and
odd-indexed dimension-0 slices along the channel dimension
(`torch.cat([h[0::2], h[1::2]], 2)`); otherwise return `h` unchanged. -/
def fix_enc_hidden (num_directions : Nat) (h : T3) : T3 :=
  if num_directions = 2 then
    List.zipWith (fun a b => List.zipWith (fun ra rb => ra ++ rb) a b)
      (sliceStep2 h) (sliceStep2 h.tail)
  else h

/-- `NMTModel.init_decoder_state` (lines 276-282): build an
`RNNDecoderState` from the (direction-fixed) encoder hidden state, then
`init_input_feed`: a zero tensor of shape `1 × batch × rnn_size` where
`batch = context.size(1)`. -/
def init_decoder_state (num_directions rnn_size : Nat) (context : T3)
    (enc_hidden : EncHidden) : RNNDecoderState :=
  let hidden := match enc_hidden with
    | .tup ts => ts.map (fix_enc_hidden num_directions)
    | .single t => [fix_enc_hidden num_directions t]
  { hidden := hidden
    input_feed := some [List.replicate (dim1 context) (List.replicate rnn_size 0)] }

/-- `NMTModel.forward` (lines 284-309): drop the final target token,
encode, initialize the decoder state (unless a state is supplied),
decode, and in multi-gpu mode suppress the returned state and attention
maps.  Returns `(out, attns, dec_state, upper_bounds)`. -/
def NMTModel.forward (num_directions rnn_size : Nat) (multigpu : Bool)
    (eo : EncOracle) (cfg : DecoderCfg) (o : DecOracle)
    (src : List (List (List Nat))) (tgt : List (List Nat)) (lengths : Option Mat)
    (dec_state : Option DecoderStateV) :
    Except String (T3 × Option (List (String × T3)) × Option RNNDecoderState × Option Mat) := do
  let tgt2 := tgt.dropLast
  let enc ← Encoder.forward eo src lengths
  let enc_state := init_decoder_state num_directions rnn_size enc.2.1 enc.1
  let dec ← Decoder.forward cfg o tgt2 src enc.2.1
    (dec_state.getD (.rnn enc_state)) enc.2.2 none
  if multigpu then .ok (dec.1, none, none, dec.2.2.2)
  else .ok (dec.1, some dec.2.2.1, some dec.2.1, dec.2.2.2)

/- ### Elimination and computation lemmas for the embedded operations -/

theorem aeqE_ok2 (a b : Nat) (h1 : b = a) : aeqE [a, b] = .ok () := by
  subst h1; simp [aeqE]

theorem aeqE_ok3 (a b c : Nat) (h1 : b = a) (h2 : c = a) : aeqE [a, b, c] = .ok () := by
  subst h1; subst h2; simp [aeqE]

theorem aeqE_err3_src (a b c : Nat) (h : b ≠ a) :
    aeqE [a, b, c] = .error "AssertionError: aeq" := by
  simp [aeqE, h]

theorem aeqE_err3_ctx (a b c : Nat) (h : c ≠ a) :
    aeqE [a, b, c] = .error "AssertionError: aeq" := by
  simp [aeqE, h]

theorem aeqE_err2 (a b : Nat) (h : b ≠ a) : aeqE [a, b] = .error "AssertionError: aeq" := by
  simp [aeqE, h]

theorem setLastCol_ok {m : Mat} {c : Nat} (v : ℚ) (hc : 1 ≤ c)
    (hrow : ∀ row ∈ m, row.length = c) :
    setLastCol m v = .ok (m.map (fun r => r.dropLast ++ [v])) := by
  unfold setLastCol
  rw [if_neg]
  simp only [List.any_eq_true, not_exists]
  intro r
  simp only [not_and]
  intro hr hemp
  have := hrow r hr
  rw [List.isEmpty_iff] at hemp
  subst hemp
  simp at this
  omega

theorem setLastCol_ok_elim {m u : Mat} {v : ℚ} (h : setLastCol m v = .ok u) :
    u = m.map (fun r => r.dropLast ++ [v]) := by
  unfold setLastCol at h
  by_cases hc : m.any (fun r => r.isEmpty)
  · rw [if_pos hc] at h; exact absurd h (by simp)
  · rw [if_neg hc] at h
    exact (Except.ok.injEq _ _ ▸ h).symm

theorem sinkRow_length {c : Nat} (v : ℚ) (r : List ℚ) (hr : r.length = c) (hc : 1 ≤ c) :
    (r.dropLast ++ [v]).length = c := by
  simp [List.length_dropLast, hr]
  omega

theorem zipWith_forall_mem {α β γ : Type} {f : α → β → γ} {P : γ → Prop} :
    ∀ {xs : List α} {ys : List β},
      (∀ a ∈ xs, ∀ b ∈ ys, P (f a b)) → ∀ z ∈ List.zipWith f xs ys, P z := by
  intro xs
  induction xs with
  | nil => intro ys _ z hz; simp at hz
  | cons x xs ih =>
    intro ys h z hz
    cases ys with
    | nil => simp at hz
    | cons y ys =>
      simp only [List.zipWith, List.mem_cons] at hz
      rcases hz with hz | hz
      · subst hz; exact h x (by simp) y (by simp)
      · exact ih (fun a ha b hb => h a (by simp [ha]) b (by simp [hb])) z hz

theorem matSub_rect {a b : Mat} {r c : Nat} (ha : isRect a r c) (hb : isRect b r c) :
    isRect (matSub a b) r c := by
  constructor
  · rw [matSub, List.length_zipWith, ha.1, hb.1]; simp
  · refine zipWith_forall_mem (fun row1 h1 row2 h2 => ?_)
    rw [List.length_zipWith, ha.2 row1 h1, hb.2 row2 h2]; simp

theorem getD_mem {α : Type} (d : α) :
    ∀ (xs : List α) (i : Nat), i < xs.length → xs.getD i d ∈ xs := by
  intro xs
  induction xs with
  | nil => intro i h; exact absurd h (by simp)
  | cons x xs ih =>
    intro i h
    cases i with
    | zero => simp
    | succ n =>
      rw [List.getD_cons_succ]
      exact List.mem_cons_of_mem x (ih n (by simpa using h))

theorem entry_matSub {a b : Mat} {r c : Nat} (ha : isRect a r c) (hb : isRect b r c)
    {i j : Nat} (hi : i < r) (hj : j < c) :
    entry (matSub a b) i j = entry a i j - entry b i j := by
  unfold entry matSub
  rw [getD_zipWith _ [] [] [] a b i (ha.1 ▸ hi) (hb.1 ▸ hi)]
  exact getD_zipWith _ 0 0 0 _ _ j
    (by rw [ha.2 _ (getD_mem [] a i (ha.1 ▸ hi))]; exact hj)
    (by rw [hb.2 _ (getD_mem [] b i (hb.1 ▸ hi))]; exact hj)

theorem entry_sinkSet {m : Mat} {r c : Nat} (v : ℚ) (hm : isRect m r c)
    {i j : Nat} (hi : i < r) (hj : j + 1 < c) :
    entry (m.map (fun row => row.dropLast ++ [v])) i j = entry m i j := by
  unfold entry
  rw [getD_map _ [] [] m i (hm.1 ▸ hi)]
  exact getD_sinkRow 0 v _ j (by rw [hm.2 _ (getD_mem [] m i (hm.1 ▸ hi))]; exact hj)

theorem sinkSet_rect {m : Mat} {r c : Nat} (v : ℚ) (hm : isRect m r c) (hc : 1 ≤ c) :
    isRect (m.map (fun row => row.dropLast ++ [v])) r c := by
  constructor
  · rw [List.length_map, hm.1]
  · intro row hrow
    rcases List.mem_map.1 hrow with ⟨r0, hr0, hr0e⟩
    rw [← hr0e]
    exact sinkRow_length v r0 (hm.2 r0 hr0) hc

theorem replicate_rect (r c : Nat) (v : ℚ) :
    isRect (List.replicate r (List.replicate c v)) r c := by
  constructor
  · simp
  · intro row hrow
    rw [List.eq_of_mem_replicate hrow]; simp

theorem entry_replicate {r c : Nat} (v : ℚ) {i j : Nat} (hi : i < r) (hj : j < c) :
    entry (List.replicate r (List.replicate c v)) i j = v := by
  unfold entry
  rw [getD_replicate _ _ r i hi, getD_replicate _ _ c j hj]

theorem preAttnUB_ok_elim {F : ℚ} {nb sl : Nat} {ubo : Option Mat} {u : Mat}
    (h : preAttnUB F nb sl ubo = .ok u) :
    u = (ubo.getD (List.replicate nb (List.replicate sl F))).map
          (fun r => r.dropLast ++ [(100 : ℚ)]) :=
  setLastCol_ok_elim h

theorem decStep_ok_elim {cfg : DecoderCfg} {o : DecOracle} {context : T3} {nb sl : Nat}
    {ls ls' : LoopState} {e : Mat}
    (h : decStep cfg o context nb sl ls e = .ok ls') :
    ∃ u1 cov,
      preAttnUB cfg.fertility nb sl ls.upper_bounds = .ok u1 ∧
      stepCoverage cfg ls.coverage (stepAttn cfg o context ls e u1).2 = .ok cov ∧
      ls' = stepRecord cfg o context ls e u1 cov := by
  unfold decStep at h
  cases h1 : preAttnUB cfg.fertility nb sl ls.upper_bounds with
  | error s => rw [h1] at h; simp at h
  | ok u1 =>
    rw [h1] at h
    rw [exc_bind_ok] at h
    cases h2 : stepCoverage cfg ls.coverage (stepAttn cfg o context ls e u1).2 with
    | error s => rw [h2] at h; simp at h
    | ok cov =>
      rw [h2] at h
      rw [exc_bind_ok] at h
      exact ⟨u1, cov, rfl, h2, (Except.ok.inj h).symm⟩

/- ### C1: sink position reset to 100 before every attention call -/

/-- C1: at every target time step, the fertility budget handed to the
attention computation (the value `u1` that `decStep` obtains from
`preAttnUB`, modelling lines 216-220 immediately before the
`self.attn(...)` call of line 227) has its last (sink) entry equal to
the constant `100` in every batch row, regardless of the budget state
`ubo` left by earlier steps; hence the sink budget before any step's
attention computation is never below that sentinel. -/
theorem sink_reset_before_attention :
    (∀ (F : ℚ) (nb sl : Nat) (ubo : Option Mat) (u : Mat),
        preAttnUB F nb sl ubo = .ok u →
        ∀ row ∈ u, row.getLast? = some 100) ∧
    (∀ (cfg : DecoderCfg) (o : DecOracle) (context : T3) (nb sl : Nat)
        (ls ls' : LoopState) (e : Mat),
        decStep cfg o context nb sl ls e = .ok ls' →
        ∃ u1, preAttnUB cfg.fertility nb sl ls.upper_bounds = .ok u1 ∧
          ∀ row ∈ u1, row.getLast? = some 100) := by
  constructor
  · intro F nb sl ubo u h row hrow
    rw [preAttnUB_ok_elim h] at hrow
    rcases List.mem_map.1 hrow with ⟨r0, _, hr0e⟩
    rw [← hr0e]
    exact List.getLast?_concat _
  · intro cfg o context nb sl ls ls' e h
    rcases decStep_ok_elim h with ⟨u1, _, h1, _, _⟩
    refine ⟨u1, h1, ?_⟩
    intro row hrow
    rw [preAttnUB_ok_elim h1] at hrow
    rcases List.mem_map.1 hrow with ⟨r0, _, hr0e⟩
    rw [← hr0e]
    exact List.getLast?_concat _

/-- Witness for C1 at a concrete input: fertility 2, batch 1, source
length 2, no pre-existing budget. -/
theorem sink_reset_before_attention_witness :
    ∀ row ∈ ([[2, 100]] : Mat), row.getLast? = some 100 :=
  sink_reset_before_attention.1 2 1 2 none [[2, 100]] rfl

/- ### C3: decoder contract assertions -/

/-- C3: `Decoder.forward`'s entry checks (lines 183-210, `decoderChecks`)
fail with a fatal assertion when the supplied state is the
non-recurrent variant; they assert, before any per-step computation,
that the batch dimensions of the target input, the source, the memory
bank and the state's input feed agree (a mismatch in the source or
memory-bank batch, or in the input feed's batch, is an `aeq` assertion
failure); and when the state is the recurrent variant with an input
feed of agreeing batch dimension, no assertion fires and the checks
succeed. -/
theorem decoder_entry_assertions :
    (∀ (input : List (List Nat)) (src : List (List (List Nat))) (context : T3)
        (st : RNNDecoderState) (f : T3),
        st.input_feed = some f →
        dim1 src = dim1 input → dim1 context = dim1 input →
        (squeeze0 f).length = dim1 input →
        decoderChecks input src context (.rnn st) = .ok (st, squeeze0 f)) ∧
    (∀ (input : List (List Nat)) (src : List (List (List Nat))) (context : T3)
        (ts : TransformerDecoderState),
        dim1 src = dim1 input → dim1 context = dim1 input →
        decoderChecks input src context (.transformer ts) =
          .error "AssertionError: isinstance(state, RNNDecoderState)") ∧
    (∀ (input : List (List Nat)) (src : List (List (List Nat))) (context : T3)
        (state : DecoderStateV),
        dim1 src ≠ dim1 input →
        decoderChecks input src context state = .error "AssertionError: aeq") ∧
    (∀ (input : List (List Nat)) (src : List (List (List Nat))) (context : T3)
        (state : DecoderStateV),
        dim1 context ≠ dim1 input →
        decoderChecks input src context state = .error "AssertionError: aeq") ∧
    (∀ (input : List (List Nat)) (src : List (List (List Nat))) (context : T3)
        (st : RNNDecoderState) (f : T3),
        st.input_feed = some f →
        dim1 src = dim1 input → dim1 context = dim1 input →
        (squeeze0 f).length ≠ dim1 input →
        decoderChecks input src context (.rnn st) = .error "AssertionError: aeq") := by
  refine ⟨?_, ?_, ?_, ?_, ?_⟩
  · intro input src context st f hf h1 h2 h3
    simp only [decoderChecks, aeqE_ok3 _ _ _ h1 h2, exc_bind_ok, hf,
      aeqE_ok2 _ _ h3]
  · intro input src context ts h1 h2
    simp only [decoderChecks, aeqE_ok3 _ _ _ h1 h2, exc_bind_ok]
  · intro input src context state h1
    simp only [decoderChecks, aeqE_err3_src _ _ _ h1, exc_bind_error]
  · intro input src context state h1
    simp only [decoderChecks, aeqE_err3_ctx _ _ _ h1, exc_bind_error]
  · intro input src context st f hf h1 h2 h3
    simp only [decoderChecks, aeqE_ok3 _ _ _ h1 h2, exc_bind_ok, hf,
      aeqE_err2 _ _ h3, exc_bind_error]

/-- Witness for C3: a concrete decoder call with agreeing batch
dimensions passes the checks, the same call with the alternative state
variant hits the `isinstance` assertion, and a batch mismatch in the
source, in the memory bank, or in the input feed hits the `aeq`
assertion. -/
theorem decoder_entry_assertions_witness :
    decoderChecks [[7]] [[[1]]] [[[0]]]
        (.rnn { hidden := [[[[0]]]], input_feed := some [[[0]]] }) =
      .ok ({ hidden := [[[[0]]]], input_feed := some [[[0]]] }, [[0]]) ∧
    decoderChecks [[7]] [[[1]]] [[[0]]] (.transformer {}) =
      .error "AssertionError: isinstance(state, RNNDecoderState)" ∧
    decoderChecks [[7]] [[[1], [2]]] [[[0]]]
        (.rnn { hidden := [[[[0]]]], input_feed := some [[[0]]] }) =
      .error "AssertionError: aeq" ∧
    decoderChecks [[7]] [[[1]]] [[[0], [1]]]
        (.rnn { hidden := [[[[0]]]], input_feed := some [[[0]]] }) =
      .error "AssertionError: aeq" ∧
    decoderChecks [[7]] [[[1]]] [[[0]]]
        (.rnn { hidden := [[[[0]]]], input_feed := some [[[0], [1]]] }) =
      .error "AssertionError: aeq" :=
  ⟨decoder_entry_assertions.1 [[7]] [[[1]]] [[[0]]] _ [[[0]]] rfl rfl rfl rfl,
   decoder_entry_assertions.2.1 [[7]] [[[1]]] [[[0]]] {} rfl rfl,
   decoder_entry_assertions.2.2.1 [[7]] [[[1], [2]]] [[[0]]] _ (by decide),
   decoder_entry_assertions.2.2.2.1 [[7]] [[[1]]] [[[0], [1]]] _ (by decide),
   decoder_entry_assertions.2.2.2.2 [[7]] [[[1]]] [[[0]]] _ [[[0], [1]]] rfl rfl rfl
     (by decide)⟩

/- ### C9: encoder lengths assertion -/

/-- C9: when a lengths tensor is supplied, `Encoder.forward` asserts at
entry — before the embedding and recurrent computation, hence for every
oracle — that the lengths tensor's batch dimension equals the input's
batch dimension, a mismatch being a fatal `aeq` assertion failure; when
the batch dimensions agree the checks pass, and when no lengths are
supplied no check occurs at all. -/
theorem encoder_lengths_assertion :
    (∀ (input : List (List (List Nat))) (l : Mat),
        numCols l = dim1 input → encoderChecks input (some l) = .ok ()) ∧
    (∀ (input : List (List (List Nat))), encoderChecks input none = .ok ()) ∧
    (∀ (o : EncOracle) (input : List (List (List Nat))) (l : Mat),
        numCols l ≠ dim1 input →
        Encoder.forward o input (some l) = .error "AssertionError: aeq") := by
  refine ⟨?_, ?_, ?_⟩
  · intro input l h
    unfold encoderChecks
    exact aeqE_ok2 _ _ h
  · intro input; rfl
  · intro o input l h
    unfold Encoder.forward
    have hc : encoderChecks input (some l) = .error "AssertionError: aeq" := by
      unfold encoderChecks
      exact aeqE_err2 _ _ h
    rw [hc, exc_bind_error]

/-- Witness for C9 at concrete inputs: agreeing batch sizes pass, a
mismatching lengths tensor makes the whole encoder call fail for a
concrete oracle. -/
theorem encoder_lengths_assertion_witness :
    encoderChecks [[[1], [2]]] (some [[3, 4]]) = .ok () ∧
    encoderChecks [[[1], [2]]] none = .ok () ∧
    Encoder.forward { embeddings := fun _ => [], rnn := fun e _ => (e, .single []) }
        [[[1], [2]]] (some [[3]]) = .error "AssertionError: aeq" :=
  ⟨encoder_lengths_assertion.1 [[[1], [2]]] [[3, 4]] rfl,
   encoder_lengths_assertion.2.1 [[[1], [2]]],
   encoder_lengths_assertion.2.2 _ [[[1], [2]]] [[3]] (by decide)⟩

/- ### C8: bidirectional hidden-state reshaping -/

theorem sliceStep2_mem {α : Type} : ∀ (l : List α), ∀ x ∈ sliceStep2 l, x ∈ l
  | [], x, hx => by simp [sliceStep2] at hx
  | [a], x, hx => by simpa [sliceStep2] using hx
  | a :: b :: rest, x, hx => by
    rw [sliceStep2] at hx
    rcases List.mem_cons.1 hx with h | h
    · simp [h]
    · exact List.mem_cons_of_mem a (List.mem_cons_of_mem b (sliceStep2_mem rest x h))

theorem sliceStep2_lengths {α : Type} :
    ∀ (L : Nat) (h : List α), h.length = 2 * L →
      (sliceStep2 h).length = L ∧ (sliceStep2 h.tail).length = L := by
  intro L
  induction L with
  | zero =>
    intro h hl
    have : h = [] := List.eq_nil_of_length_eq_zero (by omega)
    subst this
    simp [sliceStep2]
  | succ n ih =>
    intro h hl
    match h with
    | [] => simp at hl
    | [a] => simp at hl; omega
    | a :: b :: rest =>
      have hr : rest.length = 2 * n := by simp at hl; omega
      rcases ih rest hr with ⟨h1, h2⟩
      have htail : sliceStep2 (b :: rest) = b :: sliceStep2 rest.tail := by
        match rest with
        | [] => simp [sliceStep2]
        | c :: rest' => rw [sliceStep2]; rfl
      constructor
      · rw [sliceStep2, List.length_cons, h1]
      · rw [List.tail_cons, htail, List.length_cons, h2]

/-- C8: for an encoder hidden tensor of shape
`(layers * directions) × batch × d`: in the bidirectional case
(`num_directions = 2`, so `h.length = 2 * L` for `L` layers),
`fix_enc_hidden` — the even-slice/odd-slice channel concatenation of
`NMTModel._fix_enc_hidden` — returns a tensor with exactly `L`
dimension-0 slices, each of shape `batch × (2 * d)`, i.e. the last
dimension is the configured hidden width `directions * d` and the first
dimension is the layer count; in the unidirectional case the tensor is
returned unchanged. -/
theorem fix_enc_hidden_shapes :
    (∀ (h : T3) (L B d : Nat), h.length = 2 * L → (∀ m ∈ h, isRect m B d) →
        (fix_enc_hidden 2 h).length = L ∧
        ∀ m ∈ fix_enc_hidden 2 h, isRect m B (2 * d)) ∧
    (∀ (nd : Nat) (h : T3), nd ≠ 2 → fix_enc_hidden nd h = h) := by
  constructor
  · intro h L B d hl hm
    rcases sliceStep2_lengths L h hl with ⟨h1, h2⟩
    rw [fix_enc_hidden, if_pos rfl]
    constructor
    · rw [List.length_zipWith, h1, h2]; simp
    · refine zipWith_forall_mem (fun a ha b hb => ?_)
      have haM : isRect a B d := hm a (sliceStep2_mem h a ha)
      have hbM : isRect b B d := hm b (List.mem_of_mem_tail (sliceStep2_mem h.tail b hb))
      constructor
      · rw [List.length_zipWith, haM.1, hbM.1]; simp
      · refine zipWith_forall_mem (fun ra hra rb hrb => ?_)
        rw [List.length_append, haM.2 ra hra, hbM.2 rb hrb]
        omega
  · intro nd h hnd
    rw [fix_enc_hidden, if_neg hnd]

/-- Witness for C8: a concrete bidirectional hidden state with one
layer, batch 1, per-direction width 1, and a concrete unidirectional
call. -/
theorem fix_enc_hidden_shapes_witness :
    ((fix_enc_hidden 2 [[[1]], [[2]]]).length = 1 ∧
      ∀ m ∈ fix_enc_hidden 2 [[[1]], [[2]]], isRect m 1 (2 * 1)) ∧
    fix_enc_hidden 1 [[[1]], [[2]]] = [[[1]], [[2]]] :=
  ⟨fix_enc_hidden_shapes.1 [[[1]], [[2]]] 1 1 1 rfl (by decide),
   fix_enc_hidden_shapes.2 1 [[[1]], [[2]]] (by decide)⟩

/- ### C10: detach and beam replication leave coverage and budget alone -/

theorem mapM_id_map_some_concat {α : Type} :
    ∀ (xs : List α) (t : α),
      ((xs.map some ++ [some t]).mapM id : Option (List α)) = some (xs ++ [t]) := by
  intro xs t
  induction xs with
  | nil => rfl
  | cons x xs ih =>
    simp only [List.map_cons, List.cons_append, List.mapM_cons, id_eq, ih]
    simp

/-- C10: on a recurrent decoder state, `detach` and beam replication
(`repeatBeam_`) act only on the `all` tuple — the hidden-state tuple
and the input feed: for every detach transformation `f` the coverage
and fertility-budget fields are returned unchanged while the hidden
tensors and the input feed are transformed; beam replication tiles the
hidden tensors and the input feed along the batch dimension and leaves
coverage and budget unchanged; and only the overridden
`RNNDecoderState.beamUpdate_` touches the fertility budget — the
base-class `beamUpdate_` leaves both the budget and the coverage
unchanged. -/
theorem decoder_state_frame_effects :
    (∀ (f : T3 → T3) (s : RNNDecoderState),
        (detachWith f s).coverage = s.coverage ∧
        (detachWith f s).attn_upper_bounds = s.attn_upper_bounds ∧
        (detachWith f s).hidden = s.hidden.map f ∧
        (detachWith f s).input_feed = s.input_feed.map f) ∧
    (∀ (k : Nat) (s : RNNDecoderState) (t : T3), s.input_feed = some t →
        ∃ s', repeatBeam k s = some s' ∧
          s'.coverage = s.coverage ∧
          s'.attn_upper_bounds = s.attn_upper_bounds ∧
          s'.hidden = s.hidden.map (repeatDim1 k) ∧
          s'.input_feed = some (repeatDim1 k t)) ∧
    (∀ (bs idx : Nat) (pos : List Nat) (s : RNNDecoderState),
        (RNNDecoderState.beamUpdate bs idx pos s).attn_upper_bounds =
          s.attn_upper_bounds.map (beamUpdateMat bs idx pos) ∧
        (DecoderState.beamUpdate bs idx pos s).attn_upper_bounds = s.attn_upper_bounds ∧
        (DecoderState.beamUpdate bs idx pos s).coverage = s.coverage) := by
  refine ⟨fun f s => ⟨rfl, rfl, rfl, rfl⟩, ?_, fun bs idx pos s => ⟨rfl, rfl, rfl⟩⟩
  intro k s t hf
  refine ⟨RNNDecoderState.resetAll s (((s.hidden ++ [t]).map (repeatDim1 k))), ?_, ?_⟩
  · unfold repeatBeam RNNDecoderState.allList
    rw [hf, mapM_id_map_some_concat]
    rfl
  · unfold RNNDecoderState.resetAll
    rw [List.map_append]
    refine ⟨rfl, rfl, ?_, ?_⟩
    · simp only [List.map_cons, List.map_nil, List.dropLast_concat]
    · simp only [List.map_cons, List.map_nil, List.getLast?_concat]

/-- Witness for C10's beam-replication part at a concrete state with
coverage and budget present. -/
theorem decoder_state_frame_effects_witness :
    ∃ s', repeatBeam 2
        { hidden := [[[[1]]]], input_feed := some [[[3]]],
          coverage := some [[[5]]], attn_upper_bounds := some [[7, 8]] } = some s' ∧
      s'.coverage = some [[[5]]] ∧
      s'.attn_upper_bounds = some [[7, 8]] ∧
      s'.hidden = [[[[1], [1]]]] ∧
      s'.input_feed = some [[[3], [3]]] := by
  have h := decoder_state_frame_effects.2.1 2
    { hidden := [[[[1]]]], input_feed := some [[[3]]],
      coverage := some [[[5]]], attn_upper_bounds := some [[7, 8]] } [[[3]]] rfl
  simpa using h

/- ### Trace and forward elimination lemmas -/

theorem decTrace_cons_elim {cfg : DecoderCfg} {o : DecOracle} {context : T3}
    {nb sl : Nat} {ls : LoopState} {e : Mat} {es : List Mat} {sts : List LoopState}
    (h : decTrace cfg o context nb sl ls (e :: es) = .ok sts) :
    ∃ ls1 rest, decStep cfg o context nb sl ls e = .ok ls1 ∧
      decTrace cfg o context nb sl ls1 es = .ok rest ∧ sts = ls1 :: rest := by
  unfold decTrace at h
  cases h1 : decStep cfg o context nb sl ls e with
  | error s => rw [h1] at h; simp at h
  | ok ls1 =>
    rw [h1] at h
    rw [exc_bind_ok] at h
    cases h2 : decTrace cfg o context nb sl ls1 es with
    | error s => rw [h2] at h; simp at h
    | ok rest =>
      rw [h2] at h
      rw [exc_bind_ok] at h
      exact ⟨ls1, rest, rfl, h2, (Except.ok.inj h).symm⟩

theorem decTrace_all_inv {cfg : DecoderCfg} {o : DecOracle} {context : T3}
    {nb sl : Nat} {R S : LoopState → Prop}
    (hstep : ∀ ls e ls', R ls → decStep cfg o context nb sl ls e = .ok ls' → S ls')
    (hSR : ∀ ls, S ls → R ls) :
    ∀ (embs : List Mat) (ls : LoopState) (sts : List LoopState), R ls →
      decTrace cfg o context nb sl ls embs = .ok sts → ∀ x ∈ sts, S x := by
  intro embs
  induction embs with
  | nil =>
    intro ls sts _ h x hx
    unfold decTrace at h
    rw [← Except.ok.inj h] at hx
    simp at hx
  | cons e es ih =>
    intro ls sts hR h x hx
    rcases decTrace_cons_elim h with ⟨ls1, rest, h1, h2, h3⟩
    subst h3
    rcases List.mem_cons.1 hx with hx | hx
    · subst hx; exact hstep ls e x hR h1
    · exact ih ls1 rest (hSR ls1 (hstep ls e ls1 hR h1)) h2 x hx

theorem decTrace_last_inv {cfg : DecoderCfg} {o : DecOracle} {context : T3}
    {nb sl : Nat} {P : LoopState → Prop}
    (hstep : ∀ ls e ls', P ls → decStep cfg o context nb sl ls e = .ok ls' → P ls') :
    ∀ (embs : List Mat) (ls : LoopState) (sts : List LoopState), P ls →
      decTrace cfg o context nb sl ls embs = .ok sts → P (sts.getLastD ls) := by
  intro embs
  induction embs with
  | nil =>
    intro ls sts hP h
    unfold decTrace at h
    rw [← Except.ok.inj h]
    exact hP
  | cons e es ih =>
    intro ls sts hP h
    rcases decTrace_cons_elim h with ⟨ls1, rest, h1, h2, h3⟩
    subst h3
    rw [List.getLastD_cons]
    exact ih ls1 rest (hstep ls e ls1 hP h1) h2

theorem decStep_outputs_extend {cfg : DecoderCfg} {o : DecOracle} {context : T3}
    {nb sl : Nat} {ls ls' : LoopState} {e : Mat}
    (h : decStep cfg o context nb sl ls e = .ok ls') :
    ∃ out, ls'.outputs = ls.outputs ++ [out] ∧ ls'.output = out := by
  rcases decStep_ok_elim h with ⟨u1, cov, _, _, hrec⟩
  subst hrec
  exact ⟨_, rfl, rfl⟩

theorem decTrace_outputs_length {cfg : DecoderCfg} {o : DecOracle} {context : T3}
    {nb sl : Nat} :
    ∀ (embs : List Mat) (ls : LoopState) (sts : List LoopState),
      decTrace cfg o context nb sl ls embs = .ok sts →
      (sts.getLastD ls).outputs.length = ls.outputs.length + embs.length := by
  intro embs
  induction embs with
  | nil =>
    intro ls sts h
    unfold decTrace at h
    rw [← Except.ok.inj h]
    rfl
  | cons e es ih =>
    intro ls sts h
    rcases decTrace_cons_elim h with ⟨ls1, rest, h1, h2, h3⟩
    subst h3
    rw [List.getLastD_cons]
    rcases decStep_outputs_extend h1 with ⟨out, ho, _⟩
    rw [ih ls1 rest h2, ho]
    simp
    omega

theorem stackE_ok_elim {xs : List Mat} {u : T3} (h : stackE xs = .ok u) :
    u = xs ∧ xs ≠ [] := by
  unfold stackE at h
  by_cases he : xs.isEmpty
  · rw [if_pos he] at h; exact absurd h (by simp)
  · rw [if_neg he] at h
    exact ⟨(Except.ok.inj h).symm, by simpa [List.isEmpty_iff] using he⟩

theorem decoderChecks_ok_elim {input : List (List Nat)} {src : List (List (List Nat))}
    {context : T3} {state : DecoderStateV} {p : RNNDecoderState × Mat}
    (h : decoderChecks input src context state = .ok p) :
    ∃ st f, state = .rnn st ∧ st.input_feed = some f ∧ p = (st, squeeze0 f) := by
  simp only [decoderChecks] at h
  cases h1 : aeqE [dim1 input, dim1 src, dim1 context] with
  | error s => rw [h1] at h; simp at h
  | ok u =>
    rw [h1] at h
    rw [exc_bind_ok] at h
    split at h
    · simp at h
    · rename_i st
      split at h
      · simp at h
      · rename_i f hfeq
        cases h2 : aeqE [dim1 input, (squeeze0 f).length] with
        | error s => rw [h2] at h; simp at h
        | ok u2 =>
          rw [h2] at h
          rw [exc_bind_ok] at h
          exact ⟨st, f, rfl, hfeq, (Except.ok.inj h).symm⟩

theorem decoderForward_ok_elim {cfg : DecoderCfg} {o : DecOracle}
    {input : List (List Nat)} {src : List (List (List Nat))} {context : T3}
    {state : DecoderStateV} {fv : Option T3} {ub : Option Mat}
    {res : T3 × RNNDecoderState × List (String × T3) × Option Mat}
    (h : Decoder.forward cfg o input src context state fv ub = .ok res) :
    ∃ p sts, decoderChecks input src context state = .ok p ∧
      decTrace cfg o context p.2.length context.length
        (mkInitLoop p.2 p.1.hidden (p.1.coverage.map squeeze0) ub)
        (o.embeddings input) = .ok sts ∧
      (sts.getLastD (mkInitLoop p.2 p.1.hidden (p.1.coverage.map squeeze0) ub)).outputs ≠ [] ∧
      ∃ attns,
        attnsFinal cfg (sts.getLastD (mkInitLoop p.2 p.1.hidden (p.1.coverage.map squeeze0) ub))
          = .ok attns ∧
        res = ((sts.getLastD (mkInitLoop p.2 p.1.hidden (p.1.coverage.map squeeze0) ub)).outputs,
          mkFinalState (sts.getLastD (mkInitLoop p.2 p.1.hidden (p.1.coverage.map squeeze0) ub)),
          attns,
          (sts.getLastD (mkInitLoop p.2 p.1.hidden (p.1.coverage.map squeeze0) ub)).upper_bounds) := by
  simp only [Decoder.forward] at h
  cases h1 : decoderChecks input src context state with
  | error s => rw [h1] at h; simp at h
  | ok p =>
    rw [h1] at h
    rw [exc_bind_ok] at h
    cases h2 : decTrace cfg o context p.2.length context.length
        (mkInitLoop p.2 p.1.hidden (p.1.coverage.map squeeze0) ub) (o.embeddings input) with
    | error s => rw [h2] at h; simp at h
    | ok sts =>
      rw [h2] at h
      rw [exc_bind_ok] at h
      cases h3 : stackE (sts.getLastD
          (mkInitLoop p.2 p.1.hidden (p.1.coverage.map squeeze0) ub)).outputs with
      | error s => rw [h3] at h; simp at h
      | ok outs =>
        rw [h3] at h
        rw [exc_bind_ok] at h
        cases h4 : attnsFinal cfg (sts.getLastD
            (mkInitLoop p.2 p.1.hidden (p.1.coverage.map squeeze0) ub)) with
        | error s => rw [h4] at h; simp at h
        | ok attns =>
          rw [h4] at h
          rw [exc_bind_ok] at h
          rcases stackE_ok_elim h3 with ⟨ho, hne⟩
          subst ho
          exact ⟨p, sts, rfl, h2, hne, attns, h4, (Except.ok.inj h).symm⟩

/- ### C2: budget initialization and entrywise decrement -/

theorem decStep_budget_inv {cfg : DecoderCfg} {o : DecOracle} {context : T3}
    {nb sl : Nat} {ls ls' : LoopState} {e : Mat}
    (hA : ∀ q c u, isRect ((o.attn q c u).2) nb sl) (hsl : 1 ≤ sl)
    (hR : (∃ u, ls.upper_bounds = some u ∧ isRect u nb sl ∧
            ∀ b j, b < nb → j + 1 < sl →
              entry u b j = cfg.fertility - ((ls.attns_std.map (fun a => entry a b j)).sum)) ∨
          (ls.upper_bounds = none ∧ ls.attns_std = []))
    (h : decStep cfg o context nb sl ls e = .ok ls') :
    ∃ u, ls'.upper_bounds = some u ∧ isRect u nb sl ∧
      ∀ b j, b < nb → j + 1 < sl →
        entry u b j = cfg.fertility - ((ls'.attns_std.map (fun a => entry a b j)).sum) := by
  rcases decStep_ok_elim h with ⟨u1, cov, h1, h2, hrec⟩
  subst hrec
  have hu1 := preAttnUB_ok_elim h1
  set a := (stepAttn cfg o context ls e u1).2 with ha
  have haR : isRect a nb sl := hA _ _ _
  have hstd' : (stepRecord cfg o context ls e u1 cov).attns_std = ls.attns_std ++ [a] := rfl
  rcases hR with ⟨u, hu, huR, hent⟩ | ⟨hnone, hstd⟩
  · rw [hu, Option.getD_some] at hu1
    have hu1R : isRect u1 nb sl := by rw [hu1]; exact sinkSet_rect 100 huR hsl
    refine ⟨matSub u1 a, rfl, matSub_rect hu1R haR, ?_⟩
    intro b j hb hj
    rw [hstd']
    rw [entry_matSub hu1R haR hb (by omega)]
    rw [hu1, entry_sinkSet 100 huR hb hj]
    rw [hent b j hb hj]
    rw [List.map_append, List.sum_append]
    simp
    ring
  · rw [hnone, Option.getD_none] at hu1
    have hbaseR : isRect (List.replicate nb (List.replicate sl cfg.fertility)) nb sl :=
      replicate_rect nb sl cfg.fertility
    have hu1R : isRect u1 nb sl := by rw [hu1]; exact sinkSet_rect 100 hbaseR hsl
    refine ⟨matSub u1 a, rfl, matSub_rect hu1R haR, ?_⟩
    intro b j hb hj
    rw [hstd', hstd]
    rw [entry_matSub hu1R haR hb (by omega)]
    rw [hu1, entry_sinkSet 100 hbaseR hb hj, entry_replicate cfg.fertility hb (by omega)]
    simp

/-- C2: over any decode run started with no caller-supplied fertility
budget (`upper_bounds = None`), provided the attention module returns
`batch × source-length` weight matrices and the source length is
positive: (i) the budget created inside the loop is a rectangular
`batch × source-length` tensor every non-sink entry of which equals the
configured fertility value (the sink entry then being overridden); and
(ii) after every step of the trace, the budget is present and every
non-sink entry equals the configured fertility minus the total
attention mass assigned to that position over all steps so far (the sum
over the recorded `attns["std"]` entries), i.e. each step subtracts the
realized attention weights entrywise from the budget. -/
theorem budget_init_and_decrement
    (cfg : DecoderCfg) (o : DecOracle) (context : T3) (nb sl : Nat)
    (output : Mat) (hidden : List T3) (cov : Option Mat)
    (embs : List Mat) (sts : List LoopState)
    (hA : ∀ q c u, isRect ((o.attn q c u).2) nb sl) (hsl : 1 ≤ sl)
    (htr : decTrace cfg o context nb sl (mkInitLoop output hidden cov none) embs = .ok sts) :
    (∀ u', preAttnUB cfg.fertility nb sl none = .ok u' →
        isRect u' nb sl ∧ ∀ b j, b < nb → j + 1 < sl → entry u' b j = cfg.fertility) ∧
    ∀ ls ∈ sts, ∃ u, ls.upper_bounds = some u ∧ isRect u nb sl ∧
      ∀ b j, b < nb → j + 1 < sl →
        entry u b j = cfg.fertility - ((ls.attns_std.map (fun a => entry a b j)).sum) := by
  constructor
  · intro u' hu'
    have h := preAttnUB_ok_elim hu'
    rw [Option.getD_none] at h
    have hbaseR : isRect (List.replicate nb (List.replicate sl cfg.fertility)) nb sl :=
      replicate_rect nb sl cfg.fertility
    constructor
    · rw [h]; exact sinkSet_rect 100 hbaseR hsl
    · intro b j hb hj
      rw [h, entry_sinkSet 100 hbaseR hb hj, entry_replicate cfg.fertility hb (by omega)]
  · exact decTrace_all_inv
      (fun ls e ls' hR h => decStep_budget_inv hA hsl hR h)
      (fun ls hs => Or.inl hs)
      embs (mkInitLoop output hidden cov none) sts (Or.inr ⟨rfl, rfl⟩) htr

/- ### Concrete fixtures for witnesses -/

/-- A concrete decoder configuration: all optional mechanisms off,
fertility 2. -/
def cfgW : DecoderCfg :=
  { coverage_flag := false, exhaustion_loss := false, copy_flag := false,
    input_feed := false, context_gate := false, fertility := 2 }

/-- A concrete decoder oracle over batch 1, width 1, source length 2:
the embedding of a token is the one-element vector of its value, the
recurrent cell passes its input through, and the attention always
assigns mass 1/4 to the first source position and 3/4 to the sink. -/
def orW : DecOracle :=
  { embeddings := fun inp => inp.map (fun row => row.map (fun t => [(t : ℚ)]))
    rnn := fun e h => (e, h)
    attn := fun _ _ _ => ([[0]], [[1/4, 3/4]])
    copy_attn := fun _ _ => ([[0]], [[1/2, 1/2]])
    dropout := fun m => m
    context_gate := fun _ _ _ => [[9]] }

/-- A concrete memory bank of source length 2, batch 1, width 1. -/
def ctxW : T3 := [[[0]], [[0]]]

/-- A concrete incoming decoder state for batch 1. -/
def stW : RNNDecoderState := { hidden := [[[[0]]]], input_feed := some [[[0]]] }

/-- The loop state after step 1 of the concrete two-step run. -/
def traceW1 : LoopState :=
  { output := [[0]], hidden := [[[[0]]]], coverage := none,
    upper_bounds := some [[7/4, 397/4]],
    outputs := [[[0]]], attns_std := [[[1/4, 3/4]]],
    attns_coverage := [], attns_copy := [], attns_upper_bounds := [] }

/-- The loop state after step 2 of the concrete two-step run. -/
def traceW2 : LoopState :=
  { output := [[0]], hidden := [[[[0]]]], coverage := none,
    upper_bounds := some [[3/2, 397/4]],
    outputs := [[[0]], [[0]]], attns_std := [[[1/4, 3/4]], [[1/4, 3/4]]],
    attns_coverage := [], attns_copy := [], attns_upper_bounds := [] }

/-- Witness for C2 at the concrete two-step run: fertility 2, batch 1,
source length 2, attention mass 1/4 on the non-sink position at each
step, so its budget reads 2 - 1/4 after step 1 and 2 - 1/2 after
step 2. -/
theorem budget_init_and_decrement_witness :
    (∀ u', preAttnUB (2 : ℚ) 1 2 none = .ok u' →
        isRect u' 1 2 ∧ ∀ b j, b < 1 → j + 1 < 2 → entry u' b j = (2 : ℚ)) ∧
    ∀ ls ∈ [traceW1, traceW2], ∃ u, ls.upper_bounds = some u ∧ isRect u 1 2 ∧
      ∀ b j, b < 1 → j + 1 < 2 →
        entry u b j = (2 : ℚ) - ((ls.attns_std.map (fun a => entry a b j)).sum) := by
  have htr : decTrace cfgW orW ctxW 1 2 (mkInitLoop [[0]] [[[[0]]]] none none)
      [[[7]], [[8]]] = .ok [traceW1, traceW2] := by
    norm_num [decTrace, decStep, preAttnUB, setLastCol, stepCoverage, stepRecord,
      stepAttn, stepOutput, stepOut, stepRnnOut, stepHidden, stepEmb, stepCopy,
      matSub, matAdd, mkInitLoop, orW, cfgW, traceW1, traceW2,
      List.any_cons, List.any_nil, List.isEmpty_cons, List.cons_ne_nil]
  have hA : ∀ q c u, isRect ((orW.attn q c u).2) 1 2 := by
    intro q c u
    show isRect [[1/4, 3/4]] 1 2
    decide
  exact budget_init_and_decrement cfgW orW ctxW 1 2 [[0]] [[[[0]]]] none
    [[[7]], [[8]]] [traceW1, traceW2] hA (by decide) htr

/- ### C7: NMTModel drops the final target token -/

theorem decoderForward_outputs_length {cfg : DecoderCfg} {o : DecOracle}
    {input : List (List Nat)} {src : List (List (List Nat))} {context : T3}
    {state : DecoderStateV} {fv : Option T3} {ub : Option Mat}
    {res : T3 × RNNDecoderState × List (String × T3) × Option Mat}
    (h : Decoder.forward cfg o input src context state fv ub = .ok res) :
    res.1.length = (o.embeddings input).length := by
  rcases decoderForward_ok_elim h with ⟨p, sts, h1, h2, hne, attns, h3, hres⟩
  subst hres
  have hl := decTrace_outputs_length (o.embeddings input)
    (mkInitLoop p.2 p.1.hidden (p.1.coverage.map squeeze0) ub) sts h2
  simpa [mkInitLoop] using hl

theorem nmtForward_ok_elim {nd rs : Nat} {mg : Bool} {eo : EncOracle}
    {cfg : DecoderCfg} {o : DecOracle} {src : List (List (List Nat))}
    {tgt : List (List Nat)} {lengths : Option Mat} {ds : Option DecoderStateV}
    {res : T3 × Option (List (String × T3)) × Option RNNDecoderState × Option Mat}
    (h : NMTModel.forward nd rs mg eo cfg o src tgt lengths ds = .ok res) :
    ∃ enc dec, Encoder.forward eo src lengths = .ok enc ∧
      Decoder.forward cfg o tgt.dropLast src enc.2.1
        (ds.getD (.rnn (init_decoder_state nd rs enc.2.1 enc.1))) enc.2.2 none = .ok dec ∧
      res.1 = dec.1 := by
  simp only [NMTModel.forward] at h
  cases h1 : Encoder.forward eo src lengths with
  | error s => rw [h1] at h; simp at h
  | ok enc =>
    rw [h1] at h
    rw [exc_bind_ok] at h
    cases h2 : Decoder.forward cfg o tgt.dropLast src enc.2.1
        (ds.getD (.rnn (init_decoder_state nd rs enc.2.1 enc.1))) enc.2.2 none with
    | error s => rw [h2] at h; simp at h
    | ok dec =>
      rw [h2] at h
      rw [exc_bind_ok] at h
      cases mg with
      | false =>
        rw [if_neg (by simp)] at h
        exact ⟨enc, dec, rfl, h2, by rw [← Except.ok.inj h]⟩
      | true =>
        rw [if_pos rfl] at h
        exact ⟨enc, dec, rfl, h2, by rw [← Except.ok.inj h]⟩

/-- C7: `NMTModel.forward` decodes the target with its final token
removed and the source unmodified: replacing the final target token by
any other token leaves the entire result unchanged (the decoder never
sees it), and — provided the embedding module maps a `T x batch` input
to `T` per-step embeddings — a successful forward pass over a target of
length `T` returns decoder outputs of length `T - 1`, i.e. the decoder
ran exactly `T - 1` steps. -/
theorem nmt_drops_final_target_token :
    (∀ (nd rs : Nat) (mg : Bool) (eo : EncOracle) (cfg : DecoderCfg) (o : DecOracle)
        (src : List (List (List Nat))) (tgt0 : List (List Nat)) (x y : List Nat)
        (lengths : Option Mat) (ds : Option DecoderStateV),
        NMTModel.forward nd rs mg eo cfg o src (tgt0 ++ [x]) lengths ds =
          NMTModel.forward nd rs mg eo cfg o src (tgt0 ++ [y]) lengths ds) ∧
    (∀ (nd rs : Nat) (mg : Bool) (eo : EncOracle) (cfg : DecoderCfg) (o : DecOracle)
        (src : List (List (List Nat))) (tgt : List (List Nat))
        (lengths : Option Mat) (ds : Option DecoderStateV)
        (res : T3 × Option (List (String × T3)) × Option RNNDecoderState × Option Mat),
        (∀ m, (o.embeddings m).length = m.length) →
        NMTModel.forward nd rs mg eo cfg o src tgt lengths ds = .ok res →
        res.1.length = tgt.length - 1) := by
  constructor
  · intro nd rs mg eo cfg o src tgt0 x y lengths ds
    simp only [NMTModel.forward, List.dropLast_concat]
  · intro nd rs mg eo cfg o src tgt lengths ds res hE h
    rcases nmtForward_ok_elim h with ⟨enc, dec, h1, h2, h3⟩
    rw [h3, decoderForward_outputs_length h2, hE tgt.dropLast, List.length_dropLast]

/- ### Concrete evaluations shared by the remaining witnesses -/

theorem decTraceW_eval :
    decTrace cfgW orW ctxW 1 2 (mkInitLoop [[0]] [[[[0]]]] none none) [[[7]], [[8]]] =
      .ok [traceW1, traceW2] := by
  norm_num [decTrace, decStep, preAttnUB, setLastCol, stepCoverage, stepRecord,
    stepAttn, stepOutput, stepOut, stepRnnOut, stepHidden, stepEmb, stepCopy,
    matSub, matAdd, mkInitLoop, orW, cfgW, traceW1, traceW2,
    List.any_cons, List.any_nil, List.isEmpty_cons, List.cons_ne_nil]

/-- The result of the concrete two-step decoder run. -/
def decResW : T3 × RNNDecoderState × List (String × T3) × Option Mat :=
  ([[[0]], [[0]]],
   { hidden := [[[[0]]]], input_feed := some [[[0]]],
     coverage := none, attn_upper_bounds := some [[3/2, 397/4]] },
   [("std", [[[1/4, 3/4]], [[1/4, 3/4]]])],
   some [[3/2, 397/4]])

theorem decForwardW_eval :
    Decoder.forward cfgW orW [[7], [8]] [[[1]]] ctxW (.rnn stW) none none = .ok decResW := by
  have hc : decoderChecks [[7], [8]] [[[1]]] ctxW (.rnn stW) = .ok (stW, [[0]]) := by
    norm_num [decoderChecks, aeqE, dim1, squeeze0, stW, ctxW]
  have hemb : orW.embeddings [[7], [8]] = [[[7]], [[8]]] := by norm_num [orW]
  have h1 : stW.hidden = [[[[0]]]] := rfl
  have h2 : stW.coverage.map squeeze0 = none := rfl
  have h3 : ([[0]] : Mat).length = 1 := rfl
  have h4 : ctxW.length = 2 := rfl
  simp only [Decoder.forward, hc, exc_bind_ok, hemb, h1, h2, h3, h4, decTraceW_eval]
  rfl

/-- A concrete encoder oracle producing the memory bank `ctxW` and a
single (non-tuple) hidden state. -/
def eoW : EncOracle :=
  { embeddings := fun _ => [], rnn := fun _ _ => (ctxW, .single [[[0]]]) }

/-- The result of the concrete model forward pass. -/
def nmtResW : T3 × Option (List (String × T3)) × Option RNNDecoderState × Option Mat :=
  (decResW.1, some decResW.2.2.1, some decResW.2.1, decResW.2.2.2)

theorem nmtForwardW_eval :
    NMTModel.forward 1 1 false eoW cfgW orW [[[1]]] [[7], [8], [9]] none none =
      .ok nmtResW := by
  have henc : Encoder.forward eoW [[[1]]] none = .ok (.single [[[0]]], ctxW, none) := rfl
  have hst : init_decoder_state 1 1 ctxW (.single [[[0]]]) = stW := rfl
  have hdl : ([[7], [8], [9]] : List (List Nat)).dropLast = [[7], [8]] := rfl
  simp only [NMTModel.forward, henc, exc_bind_ok, hdl, hst, Option.getD_none,
    decForwardW_eval]
  rfl

/-- Witness for C7: a concrete forward pass with target length 3 whose
decoder outputs have length 2 = 3 - 1. -/
theorem nmt_drops_final_target_token_witness :
    (∀ m, (orW.embeddings m).length = m.length) ∧ nmtResW.1.length = 3 - 1 := by
  have hE : ∀ m, (orW.embeddings m).length = m.length := fun m => by simp [orW]
  exact ⟨hE, nmt_drops_final_target_token.2 1 1 false eoW cfgW orW [[[1]]]
    [[7], [8], [9]] none none nmtResW hE nmtForwardW_eval⟩

/- ### C6: keys of the attention-map dictionary -/

theorem condStack_keys {flag : Bool} {xs : List Mat} {key : String}
    {r : List (String × T3)} (h : condStack flag xs key = .ok r) :
    r.map Prod.fst = if flag then [key] else [] := by
  unfold condStack at h
  cases flag with
  | false =>
    rw [if_neg (by simp)] at h
    rw [if_neg (by simp)]
    rw [← Except.ok.inj h]
    rfl
  | true =>
    rw [if_pos rfl] at h
    rw [if_pos rfl]
    cases h2 : stackE xs with
    | error s => rw [h2] at h; simp [Except.map] at h
    | ok c =>
      rw [h2] at h
      simp only [Except.map] at h
      rw [← Except.ok.inj h]
      rfl

theorem attnsFinal_keys {cfg : DecoderCfg} {fin : LoopState}
    {attns : List (String × T3)} (h : attnsFinal cfg fin = .ok attns) :
    attns.map Prod.fst = ["std"] ++ (if cfg.copy_flag then ["copy"] else [])
      ++ (if cfg.coverage_flag then ["coverage"] else [])
      ++ (if cfg.exhaustion_loss then ["upper_bounds"] else []) := by
  unfold attnsFinal at h
  cases h1 : stackE fin.attns_std with
  | error s => rw [h1] at h; simp at h
  | ok std =>
    rw [h1] at h
    rw [exc_bind_ok] at h
    cases h2 : condStack cfg.copy_flag fin.attns_copy "copy" with
    | error s => rw [h2] at h; simp at h
    | ok cp =>
      rw [h2] at h
      rw [exc_bind_ok] at h
      cases h3 : condStack cfg.coverage_flag fin.attns_coverage "coverage" with
      | error s => rw [h3] at h; simp at h
      | ok cov =>
        rw [h3] at h
        rw [exc_bind_ok] at h
        cases h4 : condStack cfg.exhaustion_loss fin.attns_upper_bounds "upper_bounds" with
        | error s => rw [h4] at h; simp at h
        | ok ub =>
          rw [h4] at h
          rw [exc_bind_ok] at h
          rw [← Except.ok.inj h]
          rw [List.map_append, List.map_append, List.map_append]
          rw [condStack_keys h2, condStack_keys h3, condStack_keys h4]
          rfl

/-- C6: the attention-map dictionary returned by every successful
`Decoder.forward` call contains the key `"std"`; it contains `"copy"`
iff copy attention is configured, `"coverage"` iff coverage tracking is
configured, and `"upper_bounds"` iff exhaustion-loss tracking is
configured; with no optional mechanism enabled its key list is exactly
`["std"]`. -/
theorem attns_dictionary_keys
    (cfg : DecoderCfg) (o : DecOracle) (input : List (List Nat))
    (src : List (List (List Nat))) (context : T3) (state : DecoderStateV)
    (fv : Option T3) (ub : Option Mat)
    (res : T3 × RNNDecoderState × List (String × T3) × Option Mat)
    (h : Decoder.forward cfg o input src context state fv ub = .ok res) :
    "std" ∈ res.2.2.1.map Prod.fst ∧
    ("copy" ∈ res.2.2.1.map Prod.fst ↔ cfg.copy_flag = true) ∧
    ("coverage" ∈ res.2.2.1.map Prod.fst ↔ cfg.coverage_flag = true) ∧
    ("upper_bounds" ∈ res.2.2.1.map Prod.fst ↔ cfg.exhaustion_loss = true) ∧
    (cfg.copy_flag = false → cfg.coverage_flag = false → cfg.exhaustion_loss = false →
      res.2.2.1.map Prod.fst = ["std"]) := by
  rcases decoderForward_ok_elim h with ⟨p, sts, h1, h2, hne, attns, h3, hres⟩
  have hr3 : res.2.2.1 = attns := by rw [hres]
  have hk := attnsFinal_keys h3
  rw [hr3, hk]
  cases hb1 : cfg.copy_flag <;> cases hb2 : cfg.coverage_flag <;>
    cases hb3 : cfg.exhaustion_loss <;> simp

/-- Witness for C6 at the concrete two-step run with all optional
mechanisms off: the key list is exactly `["std"]`. -/
theorem attns_dictionary_keys_witness :
    "std" ∈ decResW.2.2.1.map Prod.fst ∧
    ("copy" ∈ decResW.2.2.1.map Prod.fst ↔ cfgW.copy_flag = true) ∧
    ("coverage" ∈ decResW.2.2.1.map Prod.fst ↔ cfgW.coverage_flag = true) ∧
    ("upper_bounds" ∈ decResW.2.2.1.map Prod.fst ↔ cfgW.exhaustion_loss = true) ∧
    (cfgW.copy_flag = false → cfgW.coverage_flag = false → cfgW.exhaustion_loss = false →
      decResW.2.2.1.map Prod.fst = ["std"]) :=
  attns_dictionary_keys cfgW orW [[7], [8]] [[[1]]] ctxW (.rnn stW) none none
    decResW decForwardW_eval

/- ### C4: the returned decoder state and final budget -/

theorem stepCoverage_off {cfg : DecoderCfg} {c : Option Mat} {a : Mat}
    {cov : Option Mat × Option Mat} (hflag : cfg.coverage_flag = false)
    (h : stepCoverage cfg c a = .ok cov) : cov.1 = c := by
  unfold stepCoverage at h
  rw [hflag] at h
  rw [if_neg (by simp)] at h
  rw [← Except.ok.inj h]

theorem decStep_coverage_off {cfg : DecoderCfg} {o : DecOracle} {context : T3}
    {nb sl : Nat} {ls ls' : LoopState} {e : Mat} (hflag : cfg.coverage_flag = false)
    (h : decStep cfg o context nb sl ls e = .ok ls') : ls'.coverage = ls.coverage := by
  rcases decStep_ok_elim h with ⟨u1, cov, h1, h2, hrec⟩
  subst hrec
  exact stepCoverage_off hflag h2

theorem decStep_output_last {cfg : DecoderCfg} {o : DecOracle} {context : T3}
    {nb sl : Nat} {ls ls' : LoopState} {e : Mat}
    (h : decStep cfg o context nb sl ls e = .ok ls') :
    ls'.output = ls'.outputs.getLastD [] := by
  rcases decStep_outputs_extend h with ⟨out, ho, ho2⟩
  rw [ho2, ho, List.getLastD_eq_getLast?, List.getLast?_concat]
  rfl

theorem stepCoverage_on {cfg : DecoderCfg} {c : Option Mat} {a : Mat}
    {cov : Option Mat × Option Mat} (hflag : cfg.coverage_flag = true)
    (h : stepCoverage cfg c a = .ok cov) : ∃ cn, cov.1 = some cn := by
  unfold stepCoverage at h
  rw [hflag, if_pos rfl] at h
  cases hb : pyTruthyOpt c with
  | error s => rw [hb] at h; simp at h
  | ok b =>
    rw [hb] at h
    dsimp only at h
    have h2 := (Except.ok.inj h).symm
    rw [h2]
    exact ⟨_, rfl⟩

theorem decStep_coverage_on {cfg : DecoderCfg} {o : DecOracle} {context : T3}
    {nb sl : Nat} {ls ls' : LoopState} {e : Mat} (hflag : cfg.coverage_flag = true)
    (h : decStep cfg o context nb sl ls e = .ok ls') :
    ∃ cn, ls'.coverage = some cn := by
  rcases decStep_ok_elim h with ⟨u1, cov, h1, h2, hrec⟩
  subst hrec
  exact stepCoverage_on hflag h2

theorem getLastD_mem {α : Type} :
    ∀ (l : List α) (d : α), l ≠ [] → l.getLastD d ∈ l := by
  intro l
  induction l with
  | nil => intro d h; exact absurd rfl h
  | cons a l ih =>
    intro d _
    rw [List.getLastD_cons]
    by_cases hl : l = []
    · subst hl; simp
    · exact List.mem_cons_of_mem a (ih a hl)

/-- C4 (amended): for every successful decoder call on a recurrent
state: the returned state's fertility-budget field is the same final
budget returned as the fourth result, and both equal the post-step-T
budget of the decode trace; the returned outputs are nonempty; the
returned state's input feed is the last step's (post-gate,
post-dropout) output unsqueezed; the returned state's coverage field is
the coverage accumulated by the loop — the final trace state's coverage
re-unsqueezed, which when coverage tracking is enabled is `some` (the
per-step accumulator of the COVERAGE block) and when tracking is
disabled is the incoming state's coverage squeezed and re-unsqueezed,
hence `None` exactly when the incoming state carried no coverage (the
original claim's unconditional "None when coverage is disabled" fails
for an incoming state that already carries coverage, see the
counterexample); and the returned hidden state and stacked outputs are
the hidden state and collected outputs of the final loop state of the
decode trace, i.e. the stacked cell's state after step T. -/
theorem returned_state_and_budget
    (cfg : DecoderCfg) (o : DecOracle) (input : List (List Nat))
    (src : List (List (List Nat))) (context : T3) (st : RNNDecoderState)
    (fv : Option T3) (ub : Option Mat)
    (res : T3 × RNNDecoderState × List (String × T3) × Option Mat)
    (h : Decoder.forward cfg o input src context (.rnn st) fv ub = .ok res) :
    res.2.1.attn_upper_bounds = res.2.2.2 ∧
    res.1 ≠ [] ∧
    res.2.1.input_feed = some [res.1.getLastD []] ∧
    (cfg.coverage_flag = false →
      res.2.1.coverage = st.coverage.map (fun c => [squeeze0 c])) ∧
    ∃ f sts, st.input_feed = some f ∧
      decTrace cfg o context (squeeze0 f).length context.length
        (mkInitLoop (squeeze0 f) st.hidden (st.coverage.map squeeze0) ub)
        (o.embeddings input) = .ok sts ∧
      res.2.1.hidden = (sts.getLastD
        (mkInitLoop (squeeze0 f) st.hidden (st.coverage.map squeeze0) ub)).hidden ∧
      res.1 = (sts.getLastD
        (mkInitLoop (squeeze0 f) st.hidden (st.coverage.map squeeze0) ub)).outputs ∧
      res.2.2.2 = (sts.getLastD
        (mkInitLoop (squeeze0 f) st.hidden (st.coverage.map squeeze0) ub)).upper_bounds ∧
      res.2.1.coverage = ((sts.getLastD
        (mkInitLoop (squeeze0 f) st.hidden (st.coverage.map squeeze0) ub)).coverage).map
          (fun c => [c]) ∧
      (cfg.coverage_flag = true →
        ∃ c, (sts.getLastD
            (mkInitLoop (squeeze0 f) st.hidden (st.coverage.map squeeze0) ub)).coverage =
          some c ∧ res.2.1.coverage = some [c]) := by
  rcases decoderForward_ok_elim h with ⟨p, sts, h1, h2, hne, attns, h3, hres⟩
  rcases decoderChecks_ok_elim h1 with ⟨st', f, hst, hf, hp⟩
  have hst2 : st = st' := DecoderStateV.rnn.inj hst
  subst hst2
  subst hp
  dsimp only at h2 hne h3 hres
  have hlastP := decTrace_last_inv
    (P := fun ls => ls.output = ls.outputs.getLastD [] ∨ ls.outputs = [])
    (fun ls e ls' hP hs => Or.inl (decStep_output_last hs))
    (o.embeddings input)
    (mkInitLoop (squeeze0 f) st.hidden (st.coverage.map squeeze0) ub) sts
    (Or.inr rfl) h2
  have hout : (sts.getLastD
      (mkInitLoop (squeeze0 f) st.hidden (st.coverage.map squeeze0) ub)).output =
      (sts.getLastD
        (mkInitLoop (squeeze0 f) st.hidden (st.coverage.map squeeze0) ub)).outputs.getLastD [] := by
    rcases hlastP with hP | hP
    · exact hP
    · exact absurd hP hne
  refine ⟨?_, ?_, ?_, ?_, ?_⟩
  · rw [hres]; rfl
  · rw [hres]; exact hne
  · rw [hres]
    show some [(sts.getLastD
        (mkInitLoop (squeeze0 f) st.hidden (st.coverage.map squeeze0) ub)).output] =
      some [(sts.getLastD
        (mkInitLoop (squeeze0 f) st.hidden (st.coverage.map squeeze0) ub)).outputs.getLastD []]
    rw [hout]
  · intro hflag
    have hcov := decTrace_last_inv
      (P := fun ls => ls.coverage = st.coverage.map squeeze0)
      (fun ls e ls' hP hs => by
        show ls'.coverage = st.coverage.map squeeze0
        rw [decStep_coverage_off hflag hs]
        exact hP)
      (o.embeddings input)
      (mkInitLoop (squeeze0 f) st.hidden (st.coverage.map squeeze0) ub) sts rfl h2
    rw [hres]
    show ((sts.getLastD
        (mkInitLoop (squeeze0 f) st.hidden (st.coverage.map squeeze0) ub)).coverage).map
          (fun c => [c]) =
      st.coverage.map (fun c => [squeeze0 c])
    rw [hcov, Option.map_map]
    rfl
  · refine ⟨f, sts, hf, h2, by subst hres; rfl, by subst hres; rfl, by subst hres; rfl,
      by subst hres; rfl, ?_⟩
    intro hflag
    have hsts_ne : sts ≠ [] := by
      intro hnil
      subst hnil
      exact hne rfl
    have hallS := decTrace_all_inv
      (R := fun _ => True) (S := fun ls => ∃ c, ls.coverage = some c)
      (fun ls e ls' _ hs => decStep_coverage_on hflag hs)
      (fun _ _ => trivial)
      (o.embeddings input)
      (mkInitLoop (squeeze0 f) st.hidden (st.coverage.map squeeze0) ub) sts trivial h2
    obtain ⟨c, hc⟩ := hallS _
      (getLastD_mem sts (mkInitLoop (squeeze0 f) st.hidden (st.coverage.map squeeze0) ub)
        hsts_ne)
    refine ⟨c, hc, ?_⟩
    rw [hres]
    show ((sts.getLastD
        (mkInitLoop (squeeze0 f) st.hidden (st.coverage.map squeeze0) ub)).coverage).map
          (fun x => [x]) = some [c]
    rw [hc]
    rfl

/-- Witness for the amended C4 at the concrete two-step run. -/
theorem returned_state_and_budget_witness :
    decResW.2.1.attn_upper_bounds = decResW.2.2.2 ∧
    decResW.1 ≠ [] ∧
    decResW.2.1.input_feed = some [decResW.1.getLastD []] ∧
    (cfgW.coverage_flag = false →
      decResW.2.1.coverage = stW.coverage.map (fun c => [squeeze0 c])) ∧
    ∃ f sts, stW.input_feed = some f ∧
      decTrace cfgW orW ctxW (squeeze0 f).length ctxW.length
        (mkInitLoop (squeeze0 f) stW.hidden (stW.coverage.map squeeze0) none)
        (orW.embeddings [[7], [8]]) = .ok sts ∧
      decResW.2.1.hidden = (sts.getLastD
        (mkInitLoop (squeeze0 f) stW.hidden (stW.coverage.map squeeze0) none)).hidden ∧
      decResW.1 = (sts.getLastD
        (mkInitLoop (squeeze0 f) stW.hidden (stW.coverage.map squeeze0) none)).outputs ∧
      decResW.2.2.2 = (sts.getLastD
        (mkInitLoop (squeeze0 f) stW.hidden (stW.coverage.map squeeze0) none)).upper_bounds ∧
      decResW.2.1.coverage = ((sts.getLastD
        (mkInitLoop (squeeze0 f) stW.hidden (stW.coverage.map squeeze0) none)).coverage).map
          (fun c => [c]) ∧
      (cfgW.coverage_flag = true →
        ∃ c, (sts.getLastD
            (mkInitLoop (squeeze0 f) stW.hidden (stW.coverage.map squeeze0) none)).coverage =
          some c ∧ decResW.2.1.coverage = some [c]) :=
  returned_state_and_budget cfgW orW [[7], [8]] [[[1]]] ctxW stW none none
    decResW decForwardW_eval

/-- A concrete incoming state that already carries a coverage tensor. -/
def stCov : RNNDecoderState :=
  { hidden := [[[[0]]]], input_feed := some [[[0]]], coverage := some [[[5]]] }

/-- Counterexample to C4 as stated: `cfgW` has coverage tracking
disabled, yet the state returned by a successful decoder call on an
incoming state carrying a coverage tensor has coverage
`some [[[5]]] ≠ None` — the code re-wraps the incoming coverage instead
of clearing it. -/
theorem returned_state_coverage_counterexample :
    cfgW.coverage_flag = false ∧
    (Decoder.forward cfgW orW [[7], [8]] [[[1]]] ctxW (.rnn stCov) none none).map
      (fun r => r.2.1.coverage) = .ok (some [[[5]]]) := by
  constructor
  · rfl
  · have hc : decoderChecks [[7], [8]] [[[1]]] ctxW (.rnn stCov) = .ok (stCov, [[0]]) := by
      norm_num [decoderChecks, aeqE, dim1, squeeze0, stCov, ctxW]
    have htr : decTrace cfgW orW ctxW 1 2 (mkInitLoop [[0]] [[[[0]]]] (some [[5]]) none)
        [[[7]], [[8]]] = .ok [{ traceW1 with coverage := some [[5]] },
          { traceW2 with coverage := some [[5]] }] := by
      norm_num [decTrace, decStep, preAttnUB, setLastCol, stepCoverage, stepRecord,
        stepAttn, stepOutput, stepOut, stepRnnOut, stepHidden, stepEmb, stepCopy,
        matSub, matAdd, mkInitLoop, orW, cfgW, traceW1, traceW2,
        List.any_cons, List.any_nil, List.isEmpty_cons, List.cons_ne_nil]
    have hemb : orW.embeddings [[7], [8]] = [[[7]], [[8]]] := by norm_num [orW]
    have h1 : stCov.hidden = [[[[0]]]] := rfl
    have h2 : stCov.coverage.map squeeze0 = some [[5]] := rfl
    have h3 : ([[0]] : Mat).length = 1 := rfl
    have h4 : ctxW.length = 2 := rfl
    simp only [Decoder.forward, hc, exc_bind_ok, hemb, h1, h2, h3, h4, htr]
    rfl

/- ### C5: coverage accumulation and tensor truthiness -/

/-- The decoder configuration with coverage tracking enabled. -/
def cfgCov : DecoderCfg := { cfgW with coverage_flag := true }

/-- C5 evaluation at the failing input: with coverage tracking enabled,
batch 1 and source length 2, the second decode step evaluates
`(coverage + attn) if coverage else attn` with `coverage` a
two-element tensor, whose Python truthiness raises — the whole forward
call fails instead of accumulating the running coverage sum the claim
(and the spec's own contract) describes.  Step 1 (where `coverage` is
still `None`) would have recorded `attn` as the claim states. -/
theorem coverage_truthiness_error :
    Decoder.forward cfgCov orW [[7], [8]] [[[1]]] ctxW (.rnn stW) none none =
      .error "bool value of a Tensor with more than one element is ambiguous" := by
  have hc : decoderChecks [[7], [8]] [[[1]]] ctxW (.rnn stW) = .ok (stW, [[0]]) := by
    norm_num [decoderChecks, aeqE, dim1, squeeze0, stW, ctxW]
  have hemb : orW.embeddings [[7], [8]] = [[[7]], [[8]]] := by norm_num [orW]
  have htr : decTrace cfgCov orW ctxW 1 2 (mkInitLoop [[0]] [[[[0]]]] none none)
      [[[7]], [[8]]] =
      .error "bool value of a Tensor with more than one element is ambiguous" := by
    norm_num [decTrace, decStep, preAttnUB, setLastCol, stepCoverage, stepRecord,
      stepAttn, stepOutput, stepOut, stepRnnOut, stepHidden, stepEmb, stepCopy,
      pyTruthyOpt, tensorTruthy, matSub, matAdd, mkInitLoop, orW, cfgCov, cfgW,
      List.any_cons, List.any_nil, List.isEmpty_cons, List.cons_ne_nil]
  have h1 : stW.hidden = [[[[0]]]] := rfl
  have h2 : stW.coverage.map squeeze0 = none := rfl
  have h3 : ([[0]] : Mat).length = 1 := rfl
  have h4 : ctxW.length = 2 := rfl
  simp only [Decoder.forward, hc, exc_bind_ok, hemb, h1, h2, h3, h4, htr, exc_bind_error]
